import Mathlib

/-!
Verification of the bounded lock-free SPSC ring-buffer queue from
include/foundry_runtime/spsc_queue/spsc_queue.h.

The C++ class spsc_queue<T, capacity, enable_cacheline_padding, enable_prefetch>
holds a fixed array queue[capacity], an atomic write cursor (write_next.r_w_index),
an atomic read cursor (read_next.r_w_index), and two private cached snapshots
(cached_read_loc, cached_write_loc).  The padding and prefetch template policies
have no effect on values, so the embedding carries the four cursors and the slot
array only.  Machine indices are modelled as Nat; the bitmask increment
(i + 1) & (capacity - 1) is embedded with Nat land.  The two member functions are
translated statement by statement; the out parameter of try_dequeue is threaded
explicitly (the returned value component is the final value of out_data).
-/

namespace foundry_runtime

/-- State of spsc_queue: write_next.r_w_index, read_next.r_w_index, the two
cached cursor snapshots, and the slot array queue[capacity] as a list. -/
structure spsc_queue (α : Type) : Type where
  write_next : Nat
  read_next : Nat
  cached_read_loc : Nat
  cached_write_loc : Nat
  queue : List α

/-- Embedding of the private member increment: (i + 1) & capacity_mask with
capacity_mask = capacity - 1. -/
def increment (capacity i : Nat) : Nat := (i + 1) &&& (capacity - 1)

/-- Embedding of bool try_enqueue(const T& in_data).  Returns the new state and
the returned bool.  The load/store memory orders disappear in the sequential
embedding; the control flow is kept exactly: compare the incremented write
cursor against the cached read cursor, on equality refresh the cache from the
real read cursor and fail if still equal, otherwise store into the slot at the
old write cursor and publish the incremented cursor. -/
def try_enqueue (capacity : Nat) (q : spsc_queue α) (in_data : α) :
    spsc_queue α × Bool :=
  let current_write_loc := q.write_next
  let next_loc := increment capacity current_write_loc
  if next_loc = q.cached_read_loc then
    let cached_read_loc2 := q.read_next
    if next_loc = cached_read_loc2 then
      ({ q with cached_read_loc := cached_read_loc2 }, false)
    else
      ({ q with cached_read_loc := cached_read_loc2,
                queue := q.queue.set current_write_loc in_data,
                write_next := next_loc }, true)
  else
    ({ q with queue := q.queue.set current_write_loc in_data,
              write_next := next_loc }, true)

/-- Embedding of bool try_dequeue(T& out_data).  The out parameter is threaded
explicitly: the middle component of the result is the value of out_data after
the call (assigned from the slot on the success path only, per the source). -/
def try_dequeue [Inhabited α] (capacity : Nat) (q : spsc_queue α)
    (out_data : α) : spsc_queue α × α × Bool :=
  let current_read_loc := q.read_next
  if current_read_loc = q.cached_write_loc then
    let cached_write_loc2 := q.write_next
    if current_read_loc = cached_write_loc2 then
      ({ q with cached_write_loc := cached_write_loc2 }, out_data, false)
    else
      ({ q with cached_write_loc := cached_write_loc2,
                read_next := increment capacity current_read_loc },
       q.queue.getD current_read_loc default, true)
  else
    ({ q with read_next := increment capacity current_read_loc },
     q.queue.getD current_read_loc default, true)

/-- State after the default constructor: every atomic r_w_index and both cached
cursors are zero-initialised; the slot array contents are indeterminate in C++,
so they are a parameter here. -/
def initState (slots : List α) : spsc_queue α :=
  { write_next := 0, read_next := 0, cached_read_loc := 0,
    cached_write_loc := 0, queue := slots }

/-- One call made by the harness: a try_enqueue of a value, or a try_dequeue. -/
inductive QueueOp (α : Type) : Type where
  | enqueue : α → QueueOp α
  | dequeue : QueueOp α

/-- Run a sequence of calls, collecting the values passed to successful
try_enqueue calls and the values returned by successful try_dequeue calls. -/
def runOps [Inhabited α] (capacity : Nat) :
    spsc_queue α → List (QueueOp α) → spsc_queue α × List α × List α
  | q, [] => (q, [], [])
  | q, QueueOp.enqueue v :: ops =>
      let step := try_enqueue capacity q v
      let rest := runOps capacity step.1 ops
      (rest.1, if step.2 then v :: rest.2.1 else rest.2.1, rest.2.2)
  | q, QueueOp.dequeue :: ops =>
      let step := try_dequeue capacity q default
      let rest := runOps capacity step.1 ops
      (rest.1, rest.2.1, if step.2.2 then step.2.1 :: rest.2.2 else rest.2.2)

/-- Capacity constraint enforced by the static asserts in the source:
capacity at least 2 and a power of two. -/
def PowTwoCap (capacity : Nat) : Prop := 2 ≤ capacity ∧ ∃ k, capacity = 2 ^ k

/-- Sequential reachability invariant, with ghost history: enqs is the list of
all successfully enqueued values, dcount the number of successful dequeues, d0
the dequeue count at the moment cached_read_loc was last refreshed, w0 the
enqueue count at the moment cached_write_loc was last refreshed.  The cursors
are the counts reduced modulo the capacity, the occupancy is bounded by
capacity - 1, the cached snapshots lag their cursors in the stated windows, and
the live region of the slot array holds the pending enqueued values. -/
structure QueueInvAt (capacity : Nat) [Inhabited α] (q : spsc_queue α)
    (enqs : List α) (dcount d0 w0 : Nat) : Prop where
  hlen : q.queue.length = capacity
  hw : q.write_next = enqs.length % capacity
  hr : q.read_next = dcount % capacity
  hcr : q.cached_read_loc = d0 % capacity
  hcw : q.cached_write_loc = w0 % capacity
  hdl : dcount ≤ enqs.length
  hld : enqs.length ≤ dcount + (capacity - 1)
  hd0 : d0 ≤ dcount
  hld0 : enqs.length ≤ d0 + (capacity - 1)
  hw0l : dcount ≤ w0
  hw0r : w0 ≤ enqs.length
  hslots : ∀ j, dcount ≤ j → j < enqs.length →
    q.queue.getD (j % capacity) default = enqs.getD j default

/-- Modelled from the spec: the earlier, non-cached queue variant described in
sections 4.3, 4.4 and 9 of the design, which is absent from src (only the
benchmark log in the test file refers to it).  It keeps no cached snapshots and
re-validates the opposite cursor on every call. -/
structure spsc_queue_general (α : Type) : Type where
  write_next : Nat
  read_next : Nat
  queue : List α

/-- Modelled from the spec: index advancement of the general variant, a
conditional wrap check supporting non-power-of-two capacities. -/
def increment_general (capacity i : Nat) : Nat :=
  if i + 1 = capacity then 0 else i + 1

/-- Modelled from the spec: try_enqueue of the general variant; it loads the
consumer cursor on every call, fails exactly when advance(write) equals read,
and otherwise writes the slot and publishes the advanced write cursor. -/
def try_enqueue_general (capacity : Nat) (q : spsc_queue_general α)
    (in_data : α) : spsc_queue_general α × Bool :=
  let next_loc := increment_general capacity q.write_next
  if next_loc = q.read_next then (q, false)
  else
    ({ q with queue := q.queue.set q.write_next in_data,
              write_next := next_loc }, true)

/-- Modelled from the spec: try_dequeue of the general variant; it loads the
producer cursor on every call, fails exactly when read equals write, and
otherwise reads the slot and publishes the advanced read cursor. -/
def try_dequeue_general [Inhabited α] (capacity : Nat)
    (q : spsc_queue_general α) (out_data : α) :
    spsc_queue_general α × α × Bool :=
  if q.read_next = q.write_next then (q, out_data, false)
  else
    ({ q with read_next := increment_general capacity q.read_next },
     q.queue.getD q.read_next default, true)

/-- Initial state of the general variant: both cursors zero, slot contents a
parameter. -/
def initStateGeneral (slots : List α) : spsc_queue_general α :=
  { write_next := 0, read_next := 0, queue := slots }

/-- Run a sequence of calls against the general variant, collecting the same
observables as runOps. -/
def runOpsGeneral [Inhabited α] (capacity : Nat) :
    spsc_queue_general α → List (QueueOp α) →
      spsc_queue_general α × List α × List α
  | q, [] => (q, [], [])
  | q, QueueOp.enqueue v :: ops =>
      let step := try_enqueue_general capacity q v
      let rest := runOpsGeneral capacity step.1 ops
      (rest.1, if step.2 then v :: rest.2.1 else rest.2.1, rest.2.2)
  | q, QueueOp.dequeue :: ops =>
      let step := try_dequeue_general capacity q default
      let rest := runOpsGeneral capacity step.1 ops
      (rest.1, rest.2.1, if step.2.2 then step.2.1 :: rest.2.2 else rest.2.2)

/-- Unfolding of try_enqueue as a conditional on the two cursor comparisons. -/
theorem try_enqueue_eq (capacity : Nat) (q : spsc_queue α) (v : α) :
    try_enqueue capacity q v =
      if increment capacity q.write_next = q.cached_read_loc then
        if increment capacity q.write_next = q.read_next then
          ({ q with cached_read_loc := q.read_next }, false)
        else
          ({ q with cached_read_loc := q.read_next,
                    queue := q.queue.set q.write_next v,
                    write_next := increment capacity q.write_next }, true)
      else
        ({ q with queue := q.queue.set q.write_next v,
                  write_next := increment capacity q.write_next }, true) := rfl

/-- Unfolding of try_dequeue as a conditional on the two cursor comparisons. -/
theorem try_dequeue_eq [Inhabited α] (capacity : Nat) (q : spsc_queue α)
    (out_data : α) :
    try_dequeue capacity q out_data =
      if q.read_next = q.cached_write_loc then
        if q.read_next = q.write_next then
          ({ q with cached_write_loc := q.write_next }, out_data, false)
        else
          ({ q with cached_write_loc := q.write_next,
                    read_next := increment capacity q.read_next },
           q.queue.getD q.read_next default, true)
      else
        ({ q with read_next := increment capacity q.read_next },
         q.queue.getD q.read_next default, true) := rfl

theorem PowTwoCap.pos {capacity : Nat} (h : PowTwoCap capacity) : 0 < capacity :=
  Nat.lt_of_lt_of_le (by omega) h.1

/-- The masked increment agrees with addition modulo the capacity when the
capacity is a power of two. -/
theorem increment_eq_mod (capacity i : Nat) (h : ∃ k, capacity = 2 ^ k) :
    increment capacity i = (i + 1) % capacity := by
  obtain ⟨k, rfl⟩ := h
  exact Nat.and_pow_two_sub_one_eq_mod (i + 1) k

theorem increment_lt (capacity i : Nat) (h : 2 ≤ capacity) :
    increment capacity i < capacity := by
  have := Nat.and_le_right (n := i + 1) (m := capacity - 1)
  unfold increment
  omega

/-- Two numbers at distance at most n have equal residues mod n exactly when
they are equal or differ by exactly n. -/
theorem mod_eq_mod_iff (n a b : Nat) (hab : a ≤ b) (hb : b ≤ a + n) :
    b % n = a % n ↔ b = a ∨ b = a + n := by
  constructor
  · intro h
    have hmod : a ≡ b [MOD n] := h.symm
    have hdvd : n ∣ b - a := (Nat.modEq_iff_dvd' hab).mp hmod
    rcases Nat.lt_or_ge (b - a) n with hlt | hge
    · have := Nat.eq_zero_of_dvd_of_lt hdvd hlt
      omega
    · omega
  · rintro (rfl | rfl)
    · rfl
    · exact Nat.add_mod_right a n

theorem mod_eq_mod_iff_eq (n a b : Nat) (hab : a ≤ b) (hb : b < a + n) :
    b % n = a % n ↔ b = a := by
  rw [mod_eq_mod_iff n a b hab (by omega)]
  omega

theorem getD_set_self (l : List α) (i : Nat) (hi : i < l.length) (a d : α) :
    (l.set i a).getD i d = a := by
  rw [List.getD_eq_getElem?_getD, List.getElem?_set_self hi]
  rfl

theorem getD_set_ne (l : List α) (i j : Nat) (h : i ≠ j) (a d : α) :
    (l.set i a).getD j d = l.getD j d := by
  rw [List.getD_eq_getElem?_getD, List.getElem?_set_ne h,
    ← List.getD_eq_getElem?_getD]

theorem getD_append_lt (xs ys : List α) (j : Nat) (d : α) (h : j < xs.length) :
    (xs ++ ys).getD j d = xs.getD j d := by
  simp [List.getD_eq_getElem?_getD, List.getElem?_append_left h]

theorem getD_append_len (xs : List α) (v d : α) :
    (xs ++ [v]).getD xs.length d = v := by
  simp [List.getD_eq_getElem?_getD]

theorem set_cached_read_eq (q : spsc_queue α) (x : Nat)
    (h : x = q.cached_read_loc) :
    ({ q with cached_read_loc := x } : spsc_queue α) = q := by
  cases q
  simp_all

theorem set_cached_write_eq (q : spsc_queue α) (x : Nat)
    (h : x = q.cached_write_loc) :
    ({ q with cached_write_loc := x } : spsc_queue α) = q := by
  cases q
  simp_all

/-- Writing the next enqueued value at slot enqs.length mod capacity extends
the live-region description of the slot array by one element. -/
theorem slots_after_set {α : Type} [Inhabited α] {capacity : Nat}
    {sl enqs : List α} {dcount : Nat} (hcap0 : 0 < capacity)
    (hlen : sl.length = capacity) (hld : enqs.length < dcount + capacity)
    (hsl : ∀ j, dcount ≤ j → j < enqs.length →
      sl.getD (j % capacity) default = enqs.getD j default) (v : α) :
    ∀ j, dcount ≤ j → j < (enqs ++ [v]).length →
      (sl.set (enqs.length % capacity) v).getD (j % capacity) default =
        (enqs ++ [v]).getD j default := by
  intro j hj1 hj2
  rw [List.length_append, List.length_singleton] at hj2
  rcases Nat.lt_or_ge j enqs.length with hlt | hge
  · have hne : enqs.length % capacity ≠ j % capacity := by
      intro hEq
      have := (mod_eq_mod_iff_eq capacity j enqs.length (by omega)
        (by omega)).mp hEq
      omega
    rw [getD_set_ne _ _ _ hne, hsl j hj1 hlt, getD_append_lt _ _ _ _ hlt]
  · have hj : j = enqs.length := by omega
    subst hj
    rw [getD_set_self _ _ (by rw [hlen]; exact Nat.mod_lt _ hcap0),
      getD_append_len]

/-- The invariant holds for the freshly constructed queue with empty history. -/
theorem initInv {α : Type} [Inhabited α] {capacity : Nat} (slots : List α)
    (hs : slots.length = capacity) :
    QueueInvAt capacity (initState slots) [] 0 0 0 := by
  refine { hlen := hs, hw := (Nat.zero_mod capacity).symm,
           hr := (Nat.zero_mod capacity).symm,
           hcr := (Nat.zero_mod capacity).symm,
           hcw := (Nat.zero_mod capacity).symm,
           hdl := le_refl 0, hld := by simp, hd0 := le_refl 0,
           hld0 := by simp, hw0l := le_refl 0, hw0r := le_refl 0,
           hslots := ?_ }
  intro j hj1 hj2
  simp at hj2

/-- A try_enqueue against a full reachable queue returns false and is the
identity on the state. -/
theorem try_enqueue_full_eq {α : Type} [Inhabited α] {capacity : Nat}
    {q : spsc_queue α} {enqs : List α} {dcount d0 w0 : Nat}
    (hcap : PowTwoCap capacity)
    (hinv : QueueInvAt capacity q enqs dcount d0 w0)
    (hfull : enqs.length = dcount + (capacity - 1)) (v : α) :
    try_enqueue capacity q v = (q, false) := by
  have hc2 := hcap.1
  have hd0 : d0 = dcount := by
    have h1 := hinv.hd0
    have h2 := hinv.hld0
    omega
  have hnext : increment capacity q.write_next =
      (enqs.length + 1) % capacity := by
    rw [hinv.hw, increment_eq_mod capacity _ hcap.2]
    exact Nat.mod_add_mod enqs.length capacity 1
  have hL1 : enqs.length + 1 = dcount + capacity := by omega
  have hread : (enqs.length + 1) % capacity = dcount % capacity := by
    rw [hL1]
    exact Nat.add_mod_right dcount capacity
  have hcond1 : increment capacity q.write_next = q.cached_read_loc := by
    rw [hnext, hinv.hcr, hd0]
    exact hread
  have hcond2 : increment capacity q.write_next = q.read_next := by
    rw [hnext, hinv.hr]
    exact hread
  rw [try_enqueue_eq, if_pos hcond1, if_pos hcond2]
  rw [set_cached_read_eq q q.read_next (by rw [hinv.hr, hinv.hcr, hd0])]

/-- A try_enqueue against a non-full reachable queue returns true and
re-establishes the invariant with the value appended to the history. -/
theorem try_enqueue_success {α : Type} [Inhabited α] {capacity : Nat}
    {q : spsc_queue α} {enqs : List α} {dcount d0 w0 : Nat}
    (hcap : PowTwoCap capacity)
    (hinv : QueueInvAt capacity q enqs dcount d0 w0)
    (hnf : enqs.length < dcount + (capacity - 1)) (v : α) :
    (try_enqueue capacity q v).2 = true ∧
      ∃ d02, QueueInvAt capacity (try_enqueue capacity q v).1 (enqs ++ [v])
        dcount d02 w0 := by
  have hc2 := hcap.1
  have hnext : increment capacity q.write_next =
      (enqs.length + 1) % capacity := by
    rw [hinv.hw, increment_eq_mod capacity _ hcap.2]
    exact Nat.mod_add_mod enqs.length capacity 1
  have hcond2 : increment capacity q.write_next ≠ q.read_next := by
    rw [hnext, hinv.hr]
    intro hEq
    have hdl := hinv.hdl
    have hld := hinv.hld
    have := (mod_eq_mod_iff capacity dcount (enqs.length + 1)
      (by omega) (by omega)).mp hEq
    omega
  have hslots2 : ∀ j, dcount ≤ j → j < (enqs ++ [v]).length →
      (q.queue.set q.write_next v).getD (j % capacity) default =
        (enqs ++ [v]).getD j default := by
    rw [hinv.hw]
    exact slots_after_set (by omega) hinv.hlen (by omega) hinv.hslots v
  by_cases hcond1 : increment capacity q.write_next = q.cached_read_loc
  · rw [try_enqueue_eq, if_pos hcond1, if_neg hcond2]
    refine ⟨rfl, dcount, ?_⟩
    exact {
      hlen := by simp [hinv.hlen]
      hw := by simp [hnext]
      hr := hinv.hr
      hcr := hinv.hr
      hcw := hinv.hcw
      hdl := by have := hinv.hdl; simp; omega
      hld := by simp; omega
      hd0 := le_refl dcount
      hld0 := by simp; omega
      hw0l := hinv.hw0l
      hw0r := by have := hinv.hw0r; simp; omega
      hslots := hslots2 }
  · have hne : enqs.length + 1 ≠ d0 + capacity := by
      intro hEq
      exact hcond1 (by rw [hnext, hinv.hcr, hEq]; exact Nat.add_mod_right d0 capacity)
    rw [try_enqueue_eq, if_neg hcond1]
    refine ⟨rfl, d0, ?_⟩
    exact {
      hlen := by simp [hinv.hlen]
      hw := by simp [hnext]
      hr := hinv.hr
      hcr := hinv.hcr
      hcw := hinv.hcw
      hdl := by have := hinv.hdl; simp; omega
      hld := by simp; omega
      hd0 := hinv.hd0
      hld0 := by have := hinv.hld0; simp; omega
      hw0l := hinv.hw0l
      hw0r := by have := hinv.hw0r; simp; omega
      hslots := hslots2 }

/-- A try_dequeue against an empty reachable queue returns false, leaves the
out parameter alone, and is the identity on the state. -/
theorem try_dequeue_empty_eq {α : Type} [Inhabited α] {capacity : Nat}
    {q : spsc_queue α} {enqs : List α} {dcount d0 w0 : Nat}
    (_hcap : PowTwoCap capacity)
    (hinv : QueueInvAt capacity q enqs dcount d0 w0)
    (hempty : dcount = enqs.length) (o : α) :
    try_dequeue capacity q o = (q, o, false) := by
  have hw0 : w0 = dcount := by
    have h1 := hinv.hw0l
    have h2 := hinv.hw0r
    omega
  have hcond1 : q.read_next = q.cached_write_loc := by
    rw [hinv.hr, hinv.hcw, hw0]
  have hcond2 : q.read_next = q.write_next := by
    rw [hinv.hr, hinv.hw, hempty]
  rw [try_dequeue_eq, if_pos hcond1, if_pos hcond2]
  rw [set_cached_write_eq q q.write_next
    (by rw [hinv.hw, hinv.hcw, hw0, hempty])]

/-- A try_dequeue against a non-empty reachable queue returns true, yields the
oldest pending value, and re-establishes the invariant with the dequeue count
advanced. -/
theorem try_dequeue_success {α : Type} [Inhabited α] {capacity : Nat}
    {q : spsc_queue α} {enqs : List α} {dcount d0 w0 : Nat}
    (hcap : PowTwoCap capacity)
    (hinv : QueueInvAt capacity q enqs dcount d0 w0)
    (hne : dcount < enqs.length) (o : α) :
    (try_dequeue capacity q o).2.2 = true ∧
      (try_dequeue capacity q o).2.1 = enqs.getD dcount default ∧
      ∃ w02, QueueInvAt capacity (try_dequeue capacity q o).1 enqs
        (dcount + 1) d0 w02 := by
  have hc2 := hcap.1
  have hval : q.queue.getD q.read_next default = enqs.getD dcount default := by
    rw [hinv.hr]
    exact hinv.hslots dcount (le_refl dcount) hne
  have hrincr : increment capacity q.read_next = (dcount + 1) % capacity := by
    rw [hinv.hr, increment_eq_mod capacity _ hcap.2]
    exact Nat.mod_add_mod dcount capacity 1
  by_cases hcond1 : q.read_next = q.cached_write_loc
  · have hcond2 : q.read_next ≠ q.write_next := by
      rw [hinv.hr, hinv.hw]
      intro hEq
      have hld := hinv.hld
      have := (mod_eq_mod_iff_eq capacity dcount enqs.length
        (by omega) (by omega)).mp hEq.symm
      omega
    rw [try_dequeue_eq, if_pos hcond1, if_neg hcond2]
    refine ⟨rfl, hval, enqs.length, ?_⟩
    exact {
      hlen := hinv.hlen
      hw := hinv.hw
      hr := hrincr
      hcr := hinv.hcr
      hcw := hinv.hw
      hdl := hne
      hld := by have := hinv.hld; omega
      hd0 := by have := hinv.hd0; omega
      hld0 := hinv.hld0
      hw0l := hne
      hw0r := le_refl _
      hslots := fun j hj1 hj2 => hinv.hslots j (by omega) hj2 }
  · have hwne : dcount < w0 := by
      have hne2 : w0 ≠ dcount := by
        intro hEq
        exact hcond1 (by rw [hinv.hr, hinv.hcw, hEq])
      have := hinv.hw0l
      omega
    rw [try_dequeue_eq, if_neg hcond1]
    refine ⟨rfl, hval, w0, ?_⟩
    exact {
      hlen := hinv.hlen
      hw := hinv.hw
      hr := hrincr
      hcr := hinv.hcr
      hcw := hinv.hcw
      hdl := hne
      hld := by have := hinv.hld; omega
      hd0 := by have := hinv.hd0; omega
      hld0 := hinv.hld0
      hw0l := hwne
      hw0r := hinv.hw0r
      hslots := fun j hj1 hj2 => hinv.hslots j (by omega) hj2 }

/-- On a reachable state, advance(writeCursor) equals readCursor exactly when
the ghost occupancy is capacity - 1. -/
theorem full_cursor_iff {α : Type} [Inhabited α] {capacity : Nat}
    {q : spsc_queue α} {enqs : List α} {dcount d0 w0 : Nat}
    (hcap : PowTwoCap capacity)
    (hinv : QueueInvAt capacity q enqs dcount d0 w0) :
    (increment capacity q.write_next = q.read_next ↔
      enqs.length = dcount + (capacity - 1)) := by
  have hc2 := hcap.1
  have hdl := hinv.hdl
  have hld := hinv.hld
  have hnext : increment capacity q.write_next =
      (enqs.length + 1) % capacity := by
    rw [hinv.hw, increment_eq_mod capacity _ hcap.2]
    exact Nat.mod_add_mod enqs.length capacity 1
  rw [hnext, hinv.hr,
    mod_eq_mod_iff capacity dcount (enqs.length + 1) (by omega) (by omega)]
  omega

/-- On a reachable state, readCursor equals writeCursor exactly when the ghost
occupancy is zero. -/
theorem empty_cursor_iff {α : Type} [Inhabited α] {capacity : Nat}
    {q : spsc_queue α} {enqs : List α} {dcount d0 w0 : Nat}
    (hcap : PowTwoCap capacity)
    (hinv : QueueInvAt capacity q enqs dcount d0 w0) :
    (q.read_next = q.write_next ↔ dcount = enqs.length) := by
  have hc2 := hcap.1
  have hdl := hinv.hdl
  have hld := hinv.hld
  rw [hinv.hr, hinv.hw]
  constructor
  · intro hEq
    exact ((mod_eq_mod_iff_eq capacity dcount enqs.length (by omega)
      (by omega)).mp hEq.symm).symm
  · intro hEq
    rw [hEq]

/-- Observable fields of the state after a successful try_enqueue. -/
theorem try_enqueue_success_fields {α : Type} (capacity : Nat)
    (q : spsc_queue α) (v : α) (hb : (try_enqueue capacity q v).2 = true) :
    (try_enqueue capacity q v).1.queue = q.queue.set q.write_next v ∧
    (try_enqueue capacity q v).1.write_next = increment capacity q.write_next ∧
    (try_enqueue capacity q v).1.read_next = q.read_next := by
  rw [try_enqueue_eq] at hb ⊢
  by_cases h1 : increment capacity q.write_next = q.cached_read_loc
  · by_cases h2 : increment capacity q.write_next = q.read_next
    · rw [if_pos h1, if_pos h2] at hb
      simp at hb
    · rw [if_pos h1, if_neg h2]
      exact ⟨rfl, rfl, rfl⟩
  · rw [if_neg h1]
    exact ⟨rfl, rfl, rfl⟩

/-- Observable fields of the state and value after a successful try_dequeue. -/
theorem try_dequeue_success_fields {α : Type} [Inhabited α] (capacity : Nat)
    (q : spsc_queue α) (o : α) (hb : (try_dequeue capacity q o).2.2 = true) :
    (try_dequeue capacity q o).1.queue = q.queue ∧
    (try_dequeue capacity q o).1.write_next = q.write_next ∧
    (try_dequeue capacity q o).1.read_next = increment capacity q.read_next ∧
    (try_dequeue capacity q o).2.1 = q.queue.getD q.read_next default := by
  rw [try_dequeue_eq] at hb ⊢
  by_cases h1 : q.read_next = q.cached_write_loc
  · by_cases h2 : q.read_next = q.write_next
    · rw [if_pos h1, if_pos h2] at hb
      simp at hb
    · rw [if_pos h1, if_neg h2]
      exact ⟨rfl, rfl, rfl, rfl⟩
  · rw [if_neg h1]
    exact ⟨rfl, rfl, rfl, rfl⟩

/-- The conditional-wrap advance of the general variant agrees with the masked
advance on in-range indices. -/
theorem increment_general_eq {capacity i : Nat} (hcap : ∃ k, capacity = 2 ^ k)
    (hi : i < capacity) :
    increment_general capacity i = increment capacity i := by
  rw [increment_eq_mod capacity i hcap]
  unfold increment_general
  by_cases h : i + 1 = capacity
  · rw [if_pos h, h, Nat.mod_self]
  · rw [if_neg h, Nat.mod_eq_of_lt (by omega)]

/-- Mapping getD over an initial segment of indices recovers List.take. -/
theorem map_range_getD {α : Type} (l : List α) (n : Nat) (hn : n ≤ l.length)
    (d : α) :
    (List.range n).map (fun i => l.getD i d) = l.take n := by
  induction n with
  | zero => simp
  | succ n ihn =>
    have hn2 : n ≤ l.length := by omega
    have hlt : n < l.length := by omega
    rw [List.range_succ, List.map_append, ihn hn2, List.take_succ]
    simp [List.getD_eq_getElem?_getD, List.getElem?_eq_getElem hlt]

/-- Master run lemma: from any reachable state, running any call sequence
preserves the invariant with the successfully enqueued values appended to the
history, and the successfully dequeued values are exactly the slice of the
total enqueue history between the old and the new dequeue counts. -/
theorem runOps_spec {α : Type} [Inhabited α] {capacity : Nat}
    (hcap : PowTwoCap capacity) :
    ∀ (ops : List (QueueOp α)) (q : spsc_queue α) (enqs : List α)
      (dcount d0 w0 : Nat), QueueInvAt capacity q enqs dcount d0 w0 →
      ∃ dc2 d02 w02,
        QueueInvAt capacity (runOps capacity q ops).1
          (enqs ++ (runOps capacity q ops).2.1) dc2 d02 w02 ∧
        dcount ≤ dc2 ∧
        (runOps capacity q ops).2.2 =
          (List.range (dc2 - dcount)).map
            (fun i => (enqs ++ (runOps capacity q ops).2.1).getD (dcount + i)
              default) := by
  intro ops
  induction ops with
  | nil =>
    intro q enqs dcount d0 w0 hinv
    refine ⟨dcount, d0, w0, ?_, le_refl dcount, ?_⟩
    · simpa [runOps] using hinv
    · simp [runOps]
  | cons op ops ih =>
    intro q enqs dcount d0 w0 hinv
    cases op with
    | enqueue v =>
      rcases Nat.lt_or_ge enqs.length (dcount + (capacity - 1)) with hnf | hge
      · obtain ⟨hb, d02, hinv2⟩ := try_enqueue_success hcap hinv hnf v
        obtain ⟨dc2, d03, w03, hinv3, hle, hds⟩ :=
          ih (try_enqueue capacity q v).1 (enqs ++ [v]) dcount d02 w0 hinv2
        refine ⟨dc2, d03, w03, ?_, hle, ?_⟩
        · simpa [runOps, hb, List.append_assoc] using hinv3
        · simpa [runOps, hb, List.append_assoc] using hds
      · have hfull : enqs.length = dcount + (capacity - 1) := by
          have := hinv.hld
          omega
        have hstep := try_enqueue_full_eq hcap hinv hfull v
        obtain ⟨dc2, d03, w03, hinv3, hle, hds⟩ := ih q enqs dcount d0 w0 hinv
        refine ⟨dc2, d03, w03, ?_, hle, ?_⟩
        · simpa [runOps, hstep] using hinv3
        · simpa [runOps, hstep] using hds
    | dequeue =>
      rcases Nat.lt_or_ge dcount enqs.length with hne | hge
      · obtain ⟨hb, hv, w02, hinv2⟩ := try_dequeue_success hcap hinv hne default
        obtain ⟨dc2, d03, w03, hinv3, hle, hds⟩ :=
          ih (try_dequeue capacity q default).1 enqs (dcount + 1) d0 w02 hinv2
        refine ⟨dc2, d03, w03, ?_, by omega, ?_⟩
        · simpa [runOps, hb] using hinv3
        · simp only [runOps, hb, if_true]
          have hn : dc2 - dcount = (dc2 - (dcount + 1)) + 1 := by omega
          rw [hn, List.range_succ_eq_map, List.map_cons, List.map_map]
          congr 1
          · rw [hv, Nat.add_zero,
              getD_append_lt _ _ _ _ hne]
          · rw [hds]
            apply List.map_congr_left
            intro a _
            exact congrArg
              (fun m =>
                (enqs ++
                  (runOps capacity (try_dequeue capacity q default).1
                    ops).2.1).getD m default)
              (by omega)
      · have hempty : dcount = enqs.length := by
          have := hinv.hdl
          omega
        have hstep := try_dequeue_empty_eq hcap hinv hempty default
        obtain ⟨dc2, d03, w03, hinv3, hle, hds⟩ := ih q enqs dcount d0 w0 hinv
        refine ⟨dc2, d03, w03, ?_, hle, ?_⟩
        · simpa [runOps, hstep] using hinv3
        · simpa [runOps, hstep] using hds

/-- Consecutive try_enqueue calls that fit below the capacity bound all
succeed. -/
theorem enqueue_fill {α : Type} [Inhabited α] {capacity : Nat}
    (hcap : PowTwoCap capacity) :
    ∀ (vs : List α) (q : spsc_queue α) (enqs : List α) (dcount d0 w0 : Nat),
      QueueInvAt capacity q enqs dcount d0 w0 →
      enqs.length + vs.length ≤ dcount + (capacity - 1) →
      (runOps capacity q (vs.map QueueOp.enqueue)).2.1 = vs ∧
      ∃ d02, QueueInvAt capacity
        (runOps capacity q (vs.map QueueOp.enqueue)).1 (enqs ++ vs) dcount
        d02 w0 := by
  intro vs
  induction vs with
  | nil =>
    intro q enqs dcount d0 w0 hinv hlen
    refine ⟨by simp [runOps], d0, ?_⟩
    simpa [runOps] using hinv
  | cons v vs ihv =>
    intro q enqs dcount d0 w0 hinv hlen
    have hnf : enqs.length < dcount + (capacity - 1) := by
      simp [List.length_cons] at hlen
      omega
    obtain ⟨hb, d02, hinv2⟩ := try_enqueue_success hcap hinv hnf v
    obtain ⟨hes, d03, hinv3⟩ :=
      ihv (try_enqueue capacity q v).1 (enqs ++ [v]) dcount d02 w0 hinv2
        (by simp at hlen ⊢; omega)
    refine ⟨?_, d03, ?_⟩
    · simp [runOps, hb, hes]
    · simpa [runOps, hb, List.append_assoc] using hinv3

/-- Running the same call sequence against the cached masked queue and against
the general non-cached variant yields the same success results, the same
dequeued values, and the same cursors and slot array, from related states. -/
theorem runOps_agree {α : Type} [Inhabited α] {capacity : Nat}
    (hcap : PowTwoCap capacity) :
    ∀ (ops : List (QueueOp α)) (q : spsc_queue α) (qg : spsc_queue_general α)
      (enqs : List α) (dcount d0 w0 : Nat),
      QueueInvAt capacity q enqs dcount d0 w0 →
      qg.write_next = q.write_next → qg.read_next = q.read_next →
      qg.queue = q.queue →
      (runOpsGeneral capacity qg ops).2 = (runOps capacity q ops).2 ∧
      (runOpsGeneral capacity qg ops).1.write_next =
        (runOps capacity q ops).1.write_next ∧
      (runOpsGeneral capacity qg ops).1.read_next =
        (runOps capacity q ops).1.read_next ∧
      (runOpsGeneral capacity qg ops).1.queue =
        (runOps capacity q ops).1.queue := by
  intro ops
  induction ops with
  | nil =>
    intro q qg enqs dcount d0 w0 hinv hgw hgr hgq
    exact ⟨by simp [runOps, runOpsGeneral],
      by simpa [runOps, runOpsGeneral] using hgw,
      by simpa [runOps, runOpsGeneral] using hgr,
      by simpa [runOps, runOpsGeneral] using hgq⟩
  | cons op ops ihop =>
    intro q qg enqs dcount d0 w0 hinv hgw hgr hgq
    have hwlt : q.write_next < capacity := by
      rw [hinv.hw]
      exact Nat.mod_lt _ hcap.pos
    have hrlt : q.read_next < capacity := by
      rw [hinv.hr]
      exact Nat.mod_lt _ hcap.pos
    cases op with
    | enqueue v =>
      have hnextg : increment_general capacity qg.write_next =
          increment capacity q.write_next := by
        rw [hgw]
        exact increment_general_eq hcap.2 hwlt
      rcases Nat.lt_or_ge enqs.length (dcount + (capacity - 1)) with hnf | hge
      · have hcond : increment capacity q.write_next ≠ q.read_next := by
          intro hEq
          have := (full_cursor_iff hcap hinv).mp hEq
          omega
        have hstepg : try_enqueue_general capacity qg v =
            ({ qg with queue := qg.queue.set qg.write_next v,
                       write_next :=
                         increment_general capacity qg.write_next }, true) := by
          unfold try_enqueue_general
          rw [if_neg (by rw [hnextg, hgr]; exact hcond)]
        obtain ⟨hb, d02, hinv2⟩ := try_enqueue_success hcap hinv hnf v
        obtain ⟨hq1, hw1, hr1⟩ := try_enqueue_success_fields capacity q v hb
        obtain ⟨h2, hw2, hr2, hq2⟩ :=
          ihop (try_enqueue capacity q v).1
            ({ qg with queue := qg.queue.set qg.write_next v,
                       write_next := increment_general capacity qg.write_next })
            (enqs ++ [v]) dcount d02 w0 hinv2
            (by dsimp; rw [hnextg, hw1]) (by dsimp; rw [hgr, hr1])
            (by dsimp; rw [hgq, hgw, hq1])
        refine ⟨?_, ?_, ?_, ?_⟩
        · simp [runOps, runOpsGeneral, hstepg, hb, h2]
        · simpa [runOps, runOpsGeneral, hstepg, hb] using hw2
        · simpa [runOps, runOpsGeneral, hstepg, hb] using hr2
        · simpa [runOps, runOpsGeneral, hstepg, hb] using hq2
      · have hfull : enqs.length = dcount + (capacity - 1) := by
          have := hinv.hld
          omega
        have hcond : increment capacity q.write_next = q.read_next :=
          (full_cursor_iff hcap hinv).mpr hfull
        have hstepg : try_enqueue_general capacity qg v = (qg, false) := by
          unfold try_enqueue_general
          rw [if_pos (by rw [hnextg, hgr]; exact hcond)]
        have hstep := try_enqueue_full_eq hcap hinv hfull v
        obtain ⟨h2, hw2, hr2, hq2⟩ :=
          ihop q qg enqs dcount d0 w0 hinv hgw hgr hgq
        refine ⟨?_, ?_, ?_, ?_⟩
        · simp [runOps, runOpsGeneral, hstepg, hstep, h2]
        · simpa [runOps, runOpsGeneral, hstepg, hstep] using hw2
        · simpa [runOps, runOpsGeneral, hstepg, hstep] using hr2
        · simpa [runOps, runOpsGeneral, hstepg, hstep] using hq2
    | dequeue =>
      have hincrg : increment_general capacity qg.read_next =
          increment capacity q.read_next := by
        rw [hgr]
        exact increment_general_eq hcap.2 hrlt
      rcases Nat.lt_or_ge dcount enqs.length with hne | hge
      · have hcond : q.read_next ≠ q.write_next := by
          intro hEq
          have := (empty_cursor_iff hcap hinv).mp hEq
          omega
        have hstepg : try_dequeue_general capacity qg default =
            ({ qg with read_next := increment_general capacity qg.read_next },
             qg.queue.getD qg.read_next default, true) := by
          unfold try_dequeue_general
          rw [if_neg (by rw [hgr, hgw]; exact hcond)]
        obtain ⟨hb, hv, w02, hinv2⟩ := try_dequeue_success hcap hinv hne default
        obtain ⟨hq1, hw1, hr1, hv1⟩ :=
          try_dequeue_success_fields capacity q default hb
        obtain ⟨h2, hw2, hr2, hq2⟩ :=
          ihop (try_dequeue capacity q default).1
            ({ qg with read_next := increment_general capacity qg.read_next })
            enqs (dcount + 1) d0 w02 hinv2
            (by dsimp; rw [hgw, hw1]) (by dsimp; rw [hincrg, hr1])
            (by dsimp; rw [hgq, hq1])
        have hvals : qg.queue.getD qg.read_next default =
            (try_dequeue capacity q default).2.1 := by
          rw [hgq, hgr, hv1]
        refine ⟨?_, ?_, ?_, ?_⟩
        · simp [runOps, runOpsGeneral, hstepg, hb, h2]
          simpa [List.getD_eq_getElem?_getD] using hvals
        · simpa [runOps, runOpsGeneral, hstepg, hb] using hw2
        · simpa [runOps, runOpsGeneral, hstepg, hb] using hr2
        · simpa [runOps, runOpsGeneral, hstepg, hb] using hq2
      · have hempty : dcount = enqs.length := by
          have := hinv.hdl
          omega
        have hcond : q.read_next = q.write_next :=
          (empty_cursor_iff hcap hinv).mpr hempty
        have hstepg : try_dequeue_general capacity qg default =
            (qg, default, false) := by
          unfold try_dequeue_general
          rw [if_pos (by rw [hgr, hgw]; exact hcond)]
        have hstep := try_dequeue_empty_eq hcap hinv hempty default
        obtain ⟨h2, hw2, hr2, hq2⟩ :=
          ihop q qg enqs dcount d0 w0 hinv hgw hgr hgq
        refine ⟨?_, ?_, ?_, ?_⟩
        · simp [runOps, runOpsGeneral, hstepg, hstep, h2]
        · simpa [runOps, runOpsGeneral, hstepg, hstep] using hw2
        · simpa [runOps, runOpsGeneral, hstepg, hstep] using hr2
        · simpa [runOps, runOpsGeneral, hstepg, hstep] using hq2

end foundry_runtime

namespace foundry_runtime

/-- C6: for every power-of-two capacity and every index i in [0, capacity), the
masked increment (i + 1) & (capacity - 1) equals (i + 1) mod capacity, and in
particular increment capacity (capacity - 1) = 0 (wrap-around). -/
theorem increment_masked_correct (capacity i : Nat)
    (hcap : ∃ k, capacity = 2 ^ k) (hi : i < capacity) :
    increment capacity i = (i + 1) % capacity ∧
      increment capacity (capacity - 1) = 0 := by
  refine ⟨increment_eq_mod capacity i hcap, ?_⟩
  have hpos : 0 < capacity := by
    obtain ⟨k, rfl⟩ := hcap
    exact Nat.pos_pow_of_pos k (by omega)
  rw [increment_eq_mod capacity (capacity - 1) hcap]
  have : capacity - 1 + 1 = capacity := by omega
  rw [this, Nat.mod_self]

theorem increment_masked_correct_witness :
    increment 4 3 = (3 + 1) % 4 ∧ increment 4 (4 - 1) = 0 :=
  increment_masked_correct 4 3 ⟨2, rfl⟩ (by decide)

/-- C10: when try_dequeue returns false, the out parameter is not assigned: the
value component of the result equals the value the caller passed in. -/
theorem dequeue_fail_out_data_unchanged [Inhabited α] (capacity : Nat)
    (q : spsc_queue α) (out_data : α)
    (h : (try_dequeue capacity q out_data).2.2 = false) :
    (try_dequeue capacity q out_data).2.1 = out_data := by
  rw [try_dequeue_eq] at h ⊢
  by_cases h1 : q.read_next = q.cached_write_loc
  · by_cases h2 : q.read_next = q.write_next
    · rw [if_pos h1, if_pos h2]
    · rw [if_pos h1, if_neg h2] at h
      simp at h
  · rw [if_neg h1] at h
    simp at h

theorem dequeue_fail_out_data_unchanged_witness :
    (try_dequeue 4 (initState ([9, 9, 9, 9] : List Nat)) 7).2.2 = false ∧
      (try_dequeue 4 (initState ([9, 9, 9, 9] : List Nat)) 7).2.1 = 7 :=
  ⟨by decide, dequeue_fail_out_data_unchanged 4 _ 7 (by decide)⟩

/-- C4: a failed try_enqueue leaves the entire state (both cursors, both cached
snapshots, every slot) unchanged, and an immediately repeated call fails again;
symmetrically for a failed try_dequeue.  On the failure path the code does
reassign the cached snapshot, but the failure condition forces the new value to
equal the old one, so the state is unchanged even field by field. -/
theorem failed_call_frame [Inhabited α] (capacity : Nat) (q : spsc_queue α)
    (v o : α) :
    ((try_enqueue capacity q v).2 = false → (try_enqueue capacity q v).1 = q) ∧
    ((try_dequeue capacity q o).2.2 = false → (try_dequeue capacity q o).1 = q) ∧
    ((try_enqueue capacity q v).2 = false →
      (try_enqueue capacity (try_enqueue capacity q v).1 v).2 = false) ∧
    ((try_dequeue capacity q o).2.2 = false →
      (try_dequeue capacity (try_dequeue capacity q o).1 o).2.2 = false) := by
  have henq : (try_enqueue capacity q v).2 = false →
      (try_enqueue capacity q v).1 = q := by
    intro h
    rw [try_enqueue_eq] at h ⊢
    by_cases h1 : increment capacity q.write_next = q.cached_read_loc
    · by_cases h2 : increment capacity q.write_next = q.read_next
      · rw [if_pos h1, if_pos h2]
        obtain ⟨w, r, cr, cw, sl⟩ := q
        dsimp only
        dsimp only at h1 h2
        simp [spsc_queue.mk.injEq, h2.symm.trans h1]
      · rw [if_pos h1, if_neg h2] at h
        simp at h
    · rw [if_neg h1] at h
      simp at h
  have hdeq : (try_dequeue capacity q o).2.2 = false →
      (try_dequeue capacity q o).1 = q := by
    intro h
    rw [try_dequeue_eq] at h ⊢
    by_cases h1 : q.read_next = q.cached_write_loc
    · by_cases h2 : q.read_next = q.write_next
      · rw [if_pos h1, if_pos h2]
        obtain ⟨w, r, cr, cw, sl⟩ := q
        dsimp only
        dsimp only at h1 h2
        simp [spsc_queue.mk.injEq, h2.symm.trans h1]
      · rw [if_pos h1, if_neg h2] at h
        simp at h
    · rw [if_neg h1] at h
      simp at h
  refine ⟨henq, hdeq, ?_, ?_⟩
  · intro h
    rw [henq h]
    exact h
  · intro h
    rw [hdeq h]
    exact h

/-- C1: FIFO correctness: for every power-of-two capacity and every sequence
of try_enqueue and try_dequeue calls starting from the freshly constructed
queue, the values returned by successful try_dequeue calls are, in order, an
initial segment of the values passed to successful try_enqueue calls: the i-th
successful dequeue returns the i-th successfully enqueued value. -/
theorem fifo_order {α : Type} [Inhabited α] (capacity : Nat)
    (hcap : PowTwoCap capacity) (slots : List α)
    (hs : slots.length = capacity) (ops : List (QueueOp α)) :
    ∃ pending,
      (runOps capacity (initState slots) ops).2.1 =
        (runOps capacity (initState slots) ops).2.2 ++ pending := by
  obtain ⟨dc2, d02, w02, hinv, hle, hds⟩ :=
    runOps_spec hcap ops (initState slots) [] 0 0 0 (initInv slots hs)
  have hlen : dc2 ≤ (runOps capacity (initState slots) ops).2.1.length := by
    have := hinv.hdl
    simpa using this
  refine ⟨(runOps capacity (initState slots) ops).2.1.drop dc2, ?_⟩
  have hds2 : (runOps capacity (initState slots) ops).2.2 =
      (runOps capacity (initState slots) ops).2.1.take dc2 := by
    rw [hds]
    simp only [Nat.sub_zero, List.nil_append, Nat.zero_add]
    exact map_range_getD _ dc2 hlen default
  rw [hds2, List.take_append_drop]

theorem fifo_order_witness :
    ∃ pending,
      (runOps 4 (initState ([0, 0, 0, 0] : List Nat))
        [QueueOp.enqueue 10, QueueOp.enqueue 20, QueueOp.dequeue,
         QueueOp.dequeue]).2.1 =
      (runOps 4 (initState ([0, 0, 0, 0] : List Nat))
        [QueueOp.enqueue 10, QueueOp.enqueue 20, QueueOp.dequeue,
         QueueOp.dequeue]).2.2 ++ pending :=
  fifo_order 4 ⟨by omega, 2, rfl⟩ [0, 0, 0, 0] rfl
    [QueueOp.enqueue 10, QueueOp.enqueue 20, QueueOp.dequeue, QueueOp.dequeue]

/-- C2: on every reachable state, try_enqueue returns false exactly when the
queue is full (advance(writeCursor) = readCursor) and try_dequeue returns
false exactly when the queue is empty (readCursor = writeCursor).  Both
operations are total Lean functions, so neither throws, blocks, nor retries. -/
theorem failure_iff_full_or_empty {α : Type} [Inhabited α] {capacity : Nat}
    {q : spsc_queue α} {enqs : List α} {dcount d0 w0 : Nat}
    (hcap : PowTwoCap capacity)
    (hinv : QueueInvAt capacity q enqs dcount d0 w0) (v o : α) :
    ((try_enqueue capacity q v).2 = false ↔
      increment capacity q.write_next = q.read_next) ∧
    ((try_dequeue capacity q o).2.2 = false ↔
      q.read_next = q.write_next) := by
  constructor
  · rw [full_cursor_iff hcap hinv]
    constructor
    · intro hfalse
      by_contra hnf
      have hb := (try_enqueue_success hcap hinv
        (by have := hinv.hld; omega) v).1
      rw [hb] at hfalse
      simp at hfalse
    · intro hfull
      rw [try_enqueue_full_eq hcap hinv hfull v]
  · rw [empty_cursor_iff hcap hinv]
    constructor
    · intro hfalse
      by_contra hnemp
      have hb := (try_dequeue_success hcap hinv
        (by have := hinv.hdl; omega) o).1
      rw [hb] at hfalse
      simp at hfalse
    · intro hempty
      rw [try_dequeue_empty_eq hcap hinv hempty o]

theorem failure_iff_full_or_empty_witness :
    ((try_enqueue 4 (initState ([0, 0, 0, 0] : List Nat)) 5).2 = false ↔
      increment 4 (initState ([0, 0, 0, 0] : List Nat)).write_next =
        (initState ([0, 0, 0, 0] : List Nat)).read_next) ∧
    ((try_dequeue 4 (initState ([0, 0, 0, 0] : List Nat)) 7).2.2 = false ↔
      (initState ([0, 0, 0, 0] : List Nat)).read_next =
        (initState ([0, 0, 0, 0] : List Nat)).write_next) :=
  failure_iff_full_or_empty ⟨by omega, 2, rfl⟩
    (initInv ([0, 0, 0, 0] : List Nat) rfl) 5 7

/-- C3: the queue never holds more than capacity - 1 elements (the number of
successful enqueues in any run from the initial state exceeds the number of
successful dequeues by at most capacity - 1), and from the empty queue,
capacity - 1 consecutive try_enqueue calls all succeed while the next
try_enqueue with no intervening dequeue returns false. -/
theorem capacity_bound {α : Type} [Inhabited α] (capacity : Nat)
    (hcap : PowTwoCap capacity) (slots : List α)
    (hs : slots.length = capacity) (ops : List (QueueOp α)) (vs : List α)
    (hvs : vs.length = capacity - 1) (w : α) :
    (runOps capacity (initState slots) ops).2.1.length ≤
      (runOps capacity (initState slots) ops).2.2.length + (capacity - 1) ∧
    (runOps capacity (initState slots) (vs.map QueueOp.enqueue)).2.1 = vs ∧
    (try_enqueue capacity
      (runOps capacity (initState slots) (vs.map QueueOp.enqueue)).1 w).2 =
      false := by
  obtain ⟨dc2, d02, w02, hinv, hle, hds⟩ :=
    runOps_spec hcap ops (initState slots) [] 0 0 0 (initInv slots hs)
  have hlb : (runOps capacity (initState slots) ops).2.2.length = dc2 := by
    rw [hds]
    simp
  have hub := hinv.hld
  simp only [List.nil_append] at hub
  obtain ⟨hes, d03, hinv3⟩ :=
    enqueue_fill hcap vs (initState slots) [] 0 0 0 (initInv slots hs)
      (by simp [hvs])
  refine ⟨by omega, hes, ?_⟩
  have hfull : ([] ++ vs : List α).length = 0 + (capacity - 1) := by
    simp [hvs]
  rw [try_enqueue_full_eq hcap hinv3 hfull w]

theorem capacity_bound_witness :
    (runOps 4 (initState ([0, 0, 0, 0] : List Nat))
      [QueueOp.enqueue 1, QueueOp.enqueue 2, QueueOp.dequeue]).2.1.length ≤
      (runOps 4 (initState ([0, 0, 0, 0] : List Nat))
        [QueueOp.enqueue 1, QueueOp.enqueue 2, QueueOp.dequeue]).2.2.length +
        (4 - 1) ∧
    (runOps 4 (initState ([0, 0, 0, 0] : List Nat))
      ([1, 2, 3].map QueueOp.enqueue)).2.1 = [1, 2, 3] ∧
    (try_enqueue 4
      (runOps 4 (initState ([0, 0, 0, 0] : List Nat))
        ([1, 2, 3].map QueueOp.enqueue)).1 9).2 = false :=
  capacity_bound 4 ⟨by omega, 2, rfl⟩ [0, 0, 0, 0] rfl
    [QueueOp.enqueue 1, QueueOp.enqueue 2, QueueOp.dequeue] [1, 2, 3]
    (by decide) 9

/-- C5: on an empty reachable queue (readCursor = writeCursor), try_enqueue v
returns true and an immediately following try_dequeue returns true and yields
exactly v. -/
theorem round_trip {α : Type} [Inhabited α] {capacity : Nat}
    {q : spsc_queue α} {enqs : List α} {dcount d0 w0 : Nat}
    (hcap : PowTwoCap capacity)
    (hinv : QueueInvAt capacity q enqs dcount d0 w0)
    (hempty : q.read_next = q.write_next) (v o : α) :
    (try_enqueue capacity q v).2 = true ∧
      (try_dequeue capacity (try_enqueue capacity q v).1 o).2.2 = true ∧
      (try_dequeue capacity (try_enqueue capacity q v).1 o).2.1 = v := by
  have hc2 := hcap.1
  have hdL : dcount = enqs.length := (empty_cursor_iff hcap hinv).mp hempty
  have hnf : enqs.length < dcount + (capacity - 1) := by omega
  obtain ⟨hb, d02, hinv2⟩ := try_enqueue_success hcap hinv hnf v
  have hne2 : dcount < (enqs ++ [v]).length := by
    simp
    omega
  obtain ⟨hb2, hv2, w02, hinv3⟩ := try_dequeue_success hcap hinv2 hne2 o
  refine ⟨hb, hb2, ?_⟩
  rw [hv2, hdL]
  exact getD_append_len enqs v default

theorem round_trip_witness :
    (try_enqueue 4 (initState ([0, 0, 0, 0] : List Nat)) 42).2 = true ∧
      (try_dequeue 4
        (try_enqueue 4 (initState ([0, 0, 0, 0] : List Nat)) 42).1 7).2.2 =
        true ∧
      (try_dequeue 4
        (try_enqueue 4 (initState ([0, 0, 0, 0] : List Nat)) 42).1 7).2.1 =
        42 :=
  round_trip ⟨by omega, 2, rfl⟩ (initInv ([0, 0, 0, 0] : List Nat) rfl)
    rfl 42 7

/-- C7: on every reachable state, writeCursor, readCursor and both cached
snapshots lie in [0, capacity), and being in [0, capacity) for all four fields
is preserved by any try_enqueue and any try_dequeue call, successful or
failed. -/
theorem cursor_range_invariant {α : Type} [Inhabited α] {capacity : Nat}
    {q : spsc_queue α} {enqs : List α} {dcount d0 w0 : Nat}
    (hcap : PowTwoCap capacity)
    (hinv : QueueInvAt capacity q enqs dcount d0 w0) (v o : α) :
    (q.write_next < capacity ∧ q.read_next < capacity ∧
      q.cached_read_loc < capacity ∧ q.cached_write_loc < capacity) ∧
    (∀ p : spsc_queue α,
      p.write_next < capacity → p.read_next < capacity →
      p.cached_read_loc < capacity → p.cached_write_loc < capacity →
      ((try_enqueue capacity p v).1.write_next < capacity ∧
        (try_enqueue capacity p v).1.read_next < capacity ∧
        (try_enqueue capacity p v).1.cached_read_loc < capacity ∧
        (try_enqueue capacity p v).1.cached_write_loc < capacity) ∧
      ((try_dequeue capacity p o).1.write_next < capacity ∧
        (try_dequeue capacity p o).1.read_next < capacity ∧
        (try_dequeue capacity p o).1.cached_read_loc < capacity ∧
        (try_dequeue capacity p o).1.cached_write_loc < capacity)) := by
  have hpos := hcap.pos
  have hc2 := hcap.1
  constructor
  · exact ⟨by rw [hinv.hw]; exact Nat.mod_lt _ hpos,
      by rw [hinv.hr]; exact Nat.mod_lt _ hpos,
      by rw [hinv.hcr]; exact Nat.mod_lt _ hpos,
      by rw [hinv.hcw]; exact Nat.mod_lt _ hpos⟩
  · intro p hpw hpr hpcr hpcw
    constructor
    · rw [try_enqueue_eq]
      by_cases h1 : increment capacity p.write_next = p.cached_read_loc
      · by_cases h2 : increment capacity p.write_next = p.read_next
        · rw [if_pos h1, if_pos h2]
          exact ⟨hpw, hpr, hpr, hpcw⟩
        · rw [if_pos h1, if_neg h2]
          exact ⟨increment_lt capacity _ hc2, hpr, hpr, hpcw⟩
      · rw [if_neg h1]
        exact ⟨increment_lt capacity _ hc2, hpr, hpcr, hpcw⟩
    · rw [try_dequeue_eq]
      by_cases h1 : p.read_next = p.cached_write_loc
      · by_cases h2 : p.read_next = p.write_next
        · rw [if_pos h1, if_pos h2]
          exact ⟨hpw, hpr, hpcr, hpw⟩
        · rw [if_pos h1, if_neg h2]
          exact ⟨hpw, increment_lt capacity _ hc2, hpcr, hpw⟩
      · rw [if_neg h1]
        exact ⟨hpw, increment_lt capacity _ hc2, hpcr, hpcw⟩

theorem cursor_range_invariant_witness :
    ((initState ([0, 0, 0, 0] : List Nat)).write_next < 4 ∧
      (initState ([0, 0, 0, 0] : List Nat)).read_next < 4 ∧
      (initState ([0, 0, 0, 0] : List Nat)).cached_read_loc < 4 ∧
      (initState ([0, 0, 0, 0] : List Nat)).cached_write_loc < 4) ∧
    (∀ p : spsc_queue Nat,
      p.write_next < 4 → p.read_next < 4 →
      p.cached_read_loc < 4 → p.cached_write_loc < 4 →
      ((try_enqueue 4 p 5).1.write_next < 4 ∧
        (try_enqueue 4 p 5).1.read_next < 4 ∧
        (try_enqueue 4 p 5).1.cached_read_loc < 4 ∧
        (try_enqueue 4 p 5).1.cached_write_loc < 4) ∧
      ((try_dequeue 4 p 7).1.write_next < 4 ∧
        (try_dequeue 4 p 7).1.read_next < 4 ∧
        (try_dequeue 4 p 7).1.cached_read_loc < 4 ∧
        (try_dequeue 4 p 7).1.cached_write_loc < 4)) :=
  cursor_range_invariant ⟨by omega, 2, rfl⟩
    (initInv ([0, 0, 0, 0] : List Nat) rfl) 5 7

/-- C8: the cached, masked, power-of-two queue of the header and the earlier
non-cached variant (modelled from the spec, since it is absent from src) are
behaviourally equivalent on power-of-two capacities: running any call sequence
from the initial state gives the same success results, the same dequeued
values, and the same cursors and slot array. -/
theorem cached_variant_refines_general {α : Type} [Inhabited α]
    (capacity : Nat) (hcap : PowTwoCap capacity) (slots : List α)
    (hs : slots.length = capacity) (ops : List (QueueOp α)) :
    (runOpsGeneral capacity (initStateGeneral slots) ops).2 =
      (runOps capacity (initState slots) ops).2 ∧
    (runOpsGeneral capacity (initStateGeneral slots) ops).1.write_next =
      (runOps capacity (initState slots) ops).1.write_next ∧
    (runOpsGeneral capacity (initStateGeneral slots) ops).1.read_next =
      (runOps capacity (initState slots) ops).1.read_next ∧
    (runOpsGeneral capacity (initStateGeneral slots) ops).1.queue =
      (runOps capacity (initState slots) ops).1.queue :=
  runOps_agree hcap ops (initState slots) (initStateGeneral slots) [] 0 0 0
    (initInv slots hs) rfl rfl rfl

theorem cached_variant_refines_general_witness :
    (runOpsGeneral 4 (initStateGeneral ([0, 0, 0, 0] : List Nat))
      [QueueOp.enqueue 1, QueueOp.enqueue 2, QueueOp.dequeue,
       QueueOp.enqueue 3, QueueOp.dequeue]).2 =
      (runOps 4 (initState ([0, 0, 0, 0] : List Nat))
        [QueueOp.enqueue 1, QueueOp.enqueue 2, QueueOp.dequeue,
         QueueOp.enqueue 3, QueueOp.dequeue]).2 ∧
    (runOpsGeneral 4 (initStateGeneral ([0, 0, 0, 0] : List Nat))
      [QueueOp.enqueue 1, QueueOp.enqueue 2, QueueOp.dequeue,
       QueueOp.enqueue 3, QueueOp.dequeue]).1.write_next =
      (runOps 4 (initState ([0, 0, 0, 0] : List Nat))
        [QueueOp.enqueue 1, QueueOp.enqueue 2, QueueOp.dequeue,
         QueueOp.enqueue 3, QueueOp.dequeue]).1.write_next ∧
    (runOpsGeneral 4 (initStateGeneral ([0, 0, 0, 0] : List Nat))
      [QueueOp.enqueue 1, QueueOp.enqueue 2, QueueOp.dequeue,
       QueueOp.enqueue 3, QueueOp.dequeue]).1.read_next =
      (runOps 4 (initState ([0, 0, 0, 0] : List Nat))
        [QueueOp.enqueue 1, QueueOp.enqueue 2, QueueOp.dequeue,
         QueueOp.enqueue 3, QueueOp.dequeue]).1.read_next ∧
    (runOpsGeneral 4 (initStateGeneral ([0, 0, 0, 0] : List Nat))
      [QueueOp.enqueue 1, QueueOp.enqueue 2, QueueOp.dequeue,
       QueueOp.enqueue 3, QueueOp.dequeue]).1.queue =
      (runOps 4 (initState ([0, 0, 0, 0] : List Nat))
        [QueueOp.enqueue 1, QueueOp.enqueue 2, QueueOp.dequeue,
         QueueOp.enqueue 3, QueueOp.dequeue]).1.queue :=
  cached_variant_refines_general 4 ⟨by omega, 2, rfl⟩ [0, 0, 0, 0] rfl
    [QueueOp.enqueue 1, QueueOp.enqueue 2, QueueOp.dequeue,
     QueueOp.enqueue 3, QueueOp.dequeue]

theorem failed_call_frame_witness :
    (try_dequeue 4 (initState ([9, 9, 9, 9] : List Nat)) 7).2.2 = false ∧
      (try_dequeue 4 (initState ([9, 9, 9, 9] : List Nat)) 7).1 =
        initState ([9, 9, 9, 9] : List Nat) :=
  ⟨by decide,
   (failed_call_frame 4 (initState ([9, 9, 9, 9] : List Nat)) 5 7).2.1
     (by decide)⟩

end foundry_runtime
